import Mathlib

/-!
Shallow embedding of `tools/maintenance.py` (entry parsing, TOC/readme text
regeneration, statistics aggregation, JSON export) and verification of the
specification's claims about it.
-/

set_option maxRecDepth 10000

/-- Characters of a text, the working representation of Python strings. -/
abbrev Chars := List Char

/-- Character list of a Lean string literal. -/
def str (s : String) : Chars := s.data

example : str "ab" = ['a', 'b'] := rfl
example : (['a', 'b'].asString) = "ab" := by decide
example : (str "# T").length = 3 := by decide

/-! ### Occurrence search primitives (model of regex literal-substring matching) -/

/-- All indices `i ≤ s.length` at which pattern `p` occurs in `s` (i.e. `p` is a
prefix of `s.drop i`), in ascending order. -/
def occIdxs (p s : Chars) : List Nat :=
  (List.range (s.length + 1)).filter (fun i => decide (p <+: s.drop i))

/-- Index of the first (leftmost) occurrence of `p` in `s`, if any. -/
def firstIdx? (p s : Chars) : Option Nat := (occIdxs p s).head?

/-- Maximum of a list of naturals, if nonempty. -/
def natListMax? : List Nat → Option Nat
  | [] => none
  | x :: xs =>
    match natListMax? xs with
    | none => some x
    | some m => some (max x m)

/-- Index of the last (rightmost) occurrence of `p` in `s`, if any; this is the
occurrence a greedy `.*` regex group backtracks to. -/
def lastIdx? (p s : Chars) : Option Nat := natListMax? (occIdxs p s)

theorem mem_occIdxs {p s : Chars} {i : Nat} :
    i ∈ occIdxs p s ↔ i ≤ s.length ∧ p <+: s.drop i := by
  simp [occIdxs, List.mem_filter, List.mem_range, Nat.lt_succ_iff]

theorem occIdxs_mem_of_occ {p s : Chars} {i : Nat} (hp : p ≠ [])
    (h : p <+: s.drop i) : i ∈ occIdxs p s := by
  rw [mem_occIdxs]
  refine ⟨?_, h⟩
  by_contra hle
  push_neg at hle
  rw [List.drop_eq_nil_of_le (Nat.le_of_lt hle)] at h
  exact hp (List.prefix_nil.mp h)

theorem firstIdx?_at_zero {p s : Chars} (h : p <+: s) : firstIdx? p s = some 0 := by
  unfold firstIdx? occIdxs
  rw [List.range_succ_eq_map]
  rw [List.filter_cons_of_pos (by simpa using h)]
  rfl

theorem natListMax?_isSome_of_ne_nil {l : List Nat} (h : l ≠ []) :
    ∃ m, natListMax? l = some m := by
  cases l with
  | nil => exact absurd rfl h
  | cons x xs =>
    unfold natListMax?
    cases natListMax? xs <;> simp

theorem natListMax?_mem : ∀ {l : List Nat} {m : Nat}, natListMax? l = some m → m ∈ l
  | [], m, h => by simp [natListMax?] at h
  | x :: xs, m, h => by
    unfold natListMax? at h
    cases hx : natListMax? xs with
    | none =>
      rw [hx] at h
      simp at h
      simp [h]
    | some k =>
      rw [hx] at h
      simp at h
      subst h
      rcases Nat.le_total x k with hle | hle
      · rw [Nat.max_eq_right hle]
        exact List.mem_cons_of_mem _ (natListMax?_mem hx)
      · rw [Nat.max_eq_left hle]
        exact List.mem_cons_self _ _

theorem le_natListMax? : ∀ {l : List Nat} {m k : Nat},
    natListMax? l = some m → k ∈ l → k ≤ m
  | [], _, _, _, hk => by simp at hk
  | x :: xs, m, k, h, hk => by
    unfold natListMax? at h
    cases hx : natListMax? xs with
    | none =>
      rw [hx] at h
      simp at h
      have hxs : xs = [] := by
        cases xs with
        | nil => rfl
        | cons y ys =>
          exfalso
          obtain ⟨m', hm'⟩ := natListMax?_isSome_of_ne_nil (l := y :: ys) (by simp)
          rw [hm'] at hx
          exact Option.noConfusion hx
      subst hxs
      simp at hk
      omega
    | some j =>
      rw [hx] at h
      simp at h
      subst h
      cases hk with
      | head => exact Nat.le_max_left _ _
      | tail _ hmem => exact Nat.le_trans (le_natListMax? hx hmem) (Nat.le_max_right _ _)

theorem natListMax?_eq_some_of {l : List Nat} {m : Nat} (hm : m ∈ l)
    (hmax : ∀ k ∈ l, k ≤ m) : natListMax? l = some m := by
  induction l with
  | nil => simp at hm
  | cons x xs ih =>
    unfold natListMax?
    cases hx : natListMax? xs with
    | none =>
      have : xs = [] := by
        cases xs with
        | nil => rfl
        | cons y ys => unfold natListMax? at hx; cases h : natListMax? ys <;> simp [h] at hx
      subst this
      simp at hm
      simp [hm]
    | some j =>
      have hjm : j ≤ m := hmax j (List.mem_cons_of_mem _ (natListMax?_mem hx))
      cases hm with
      | head =>
        simp [Nat.max_eq_left hjm]
      | tail _ hmem =>
        have : m ≤ j := le_natListMax? hx hmem
        have hxm : x ≤ m := hmax x (List.mem_cons_self _ _)
        have hjm' : j = m := Nat.le_antisymm hjm this
        subst hjm'
        simp [Nat.max_eq_right hxm]

theorem lastIdx?_of_last {p s : Chars} {m : Nat} (hp : p ≠ [])
    (h1 : p <+: s.drop m) (h2 : ∀ k, m < k → ¬ p <+: s.drop k) :
    lastIdx? p s = some m := by
  apply natListMax?_eq_some_of (occIdxs_mem_of_occ hp h1)
  intro k hk
  rw [mem_occIdxs] at hk
  by_contra hlt
  push_neg at hlt
  exact h2 k hlt hk.2

theorem lastIdx?_occ {p s : Chars} {j : Nat} (h : lastIdx? p s = some j) :
    p <+: s.drop j := by
  have := natListMax?_mem h
  exact (mem_occIdxs.mp this).2

theorem lastIdx?_maximal {p s : Chars} {j k : Nat} (hp : p ≠ [])
    (h : lastIdx? p s = some j) (hk : j < k) : ¬ p <+: s.drop k := by
  intro hocc
  have hmem := occIdxs_mem_of_occ hp hocc
  have := le_natListMax? h hmem
  omega

/-! ### Python value and error model -/

/-- A Python value as stored in the `info` dict of `parse_entry`: either a
string (`title`, the `-raw` entries) or a list of strings (field value lists,
`inactive`). -/
inductive PyVal where
  | s (v : String)
  | l (v : List String)
deriving DecidableEq, Repr

/-- An uncaught Python exception terminating the run. -/
inductive PyError where
  | assertionError
  | nameError (name : String)
  | typeError (msg : String)
  | keyError (key : String)
  | indexError
deriving DecidableEq, Repr

deriving instance DecidableEq for Except

/-- The `info` dictionary: insertion-ordered association list with
overwrite-on-assignment semantics (Python `dict`). -/
abbrev Dict := List (String × PyVal)

/-- Dictionary lookup, `k in d` / `d.get(k)` semantics. -/
def dget : Dict → String → Option PyVal
  | [], _ => none
  | (k, v) :: rest, key => if k = key then some v else dget rest key

/-- Dictionary assignment `d[k] = v`: overwrites an existing key in place,
otherwise appends. -/
def dset : Dict → String → PyVal → Dict
  | [], key, val => [(key, val)]
  | (k, v) :: rest, key, val =>
    if k = key then (k, val) :: rest else (k, v) :: dset rest key val

/-- Python `d[k]`: raises `KeyError` when the key is absent. -/
def pyGetItem (d : Dict) (key : String) : Except PyError PyVal :=
  match dget d key with
  | some v => .ok v
  | none => .error (.keyError key)

/-- Python `str(x)` for our values; a list renders like `['a', 'b']`
(single-quoted element reprs, no escaping modelled). -/
def pyStr : PyVal → String
  | .s v => v
  | .l xs =>
    let q := String.singleton (Char.ofNat 39)
    "[" ++ String.intercalate ", " (xs.map (fun x => q ++ x ++ q)) ++ "]"

/-- Python `needle in v`: substring test on a string, membership on a list. -/
def pyIn (needle : String) (v : PyVal) : Bool :=
  match v with
  | .s hay => (firstIdx? (str needle) (str hay)).isSome
  | .l xs => needle ∈ xs

/-- Python `v != s` where `s` is a string: values of different types are
always unequal, strings compare by content. -/
def pyNeStr (v : PyVal) (s : String) : Bool :=
  match v with
  | .s t => t ≠ s
  | .l _ => true

/-- Python unary minus on one of our values: both `str` and `list` raise
`TypeError` (no numeric values are ever stored by this program). -/
def pyUnaryNeg (v : PyVal) : Except PyError Int :=
  match v with
  | .s _ => .error (.typeError "bad operand type for unary minus: str")
  | .l _ => .error (.typeError "bad operand type for unary minus: list")

/-- Python `v[0]` on one of our values. -/
def pySubscript0 (v : PyVal) : Except PyError String :=
  match v with
  | .s t => if t.isEmpty then .error .indexError else .ok (String.singleton t.front)
  | .l [] => .error .indexError
  | .l (x :: _) => .ok x

/-- Monadic map that propagates the first raised exception, the way a Python
loop (or `list.sort`'s key precomputation) does. -/
def mapExcept (f : α → Except PyError β) : List α → Except PyError (List β)
  | [] => .ok []
  | x :: xs =>
    match f x with
    | .error e => .error e
    | .ok y =>
      match mapExcept f xs with
      | .error e => .error e
      | .ok ys => .ok (y :: ys)

/-- Whether a Python value is hashable: strings are, lists are not. -/
def pyHashable : PyVal → Bool
  | .s _ => true
  | .l _ => false

/-- Python `set(iterable)` (as a deduplicated list in first-occurrence order):
raises `TypeError` on an unhashable element. -/
def pySet (l : List PyVal) : Except PyError (List PyVal) :=
  if l.all pyHashable then .ok l.dedup
  else .error (.typeError "unhashable type: list")

/-! ### Entry parser (`parse_entry`, maintenance.py lines 271-331) -/

/-- The lines of a text, `re.MULTILINE` segmentation: the segments between
newline characters (a trailing newline yields a final empty segment). -/
def pylines (s : Chars) : List Chars := s.splitOn '\n'

/-- Lazy capture of `(.*?)` up to the first `": "` in a line, the group of the
field-name regex `^- (.*?): ` (the dot never crosses a newline). -/
def nameUpToColonSpace : Chars → Option Chars
  | [] => none
  | c :: rest =>
    if str ": " <+: c :: rest then some []
    else if c = '\n' then none
    else (nameUpToColonSpace rest).map (c :: ·)

/-- Field name declared by one line, per `re.compile(r"^- (.*?): ",
re.MULTILINE)` applied at the line start. -/
def fieldNameOfLine (line : Chars) : Option Chars :=
  if str "- " <+: line then nameUpToColonSpace (line.drop 2) else none

/-- `fields = regex.findall(content)` for the field-name regex: one capture per
line that starts with `- ` and contains `": "`. -/
def fieldsOf (content : Chars) : List Chars :=
  (pylines content).filterMap fieldNameOfLine

/-- Per-line match of `re.compile(r"- {}: (.*)".format(field))`: the capture
after the first occurrence of the literal `- field: ` in the line, running to
the end of the line.  (For the field names this program handles — no regex
metacharacters — the formatted pattern is exactly this literal search.) -/
def matchValueInLine (fname line : Chars) : Option Chars :=
  (firstIdx? (str "- " ++ fname ++ str ": ") line).map
    (fun i => line.drop (i + fname.length + 4))

/-- `matches = regex.findall(content)` for the field-value regex: the
non-overlapping matches are at most one per line (the capture `(.*)` consumes
the rest of the line). -/
def valueMatchesFor (fname content : Chars) : List Chars :=
  (pylines content).filterMap (matchValueInLine fname)

/-- Python whitespace for `str.strip()` (ASCII model). -/
def pyIsSpace (c : Char) : Bool :=
  c = ' ' || c = '\t' || c = '\n' || c = '\r' || c = '\x0b' || c = '\x0c'

/-- `str.strip()`. -/
def pyStrip (l : Chars) : Chars :=
  ((l.dropWhile pyIsSpace).reverse.dropWhile pyIsSpace).reverse

/-- Drop through the first `')'` of a list, returning the remainder. -/
def findClose : Chars → Option Chars
  | [] => none
  | c :: t => if c = ')' then some t else findClose t

theorem findClose_length : ∀ {l r : Chars}, findClose l = some r → r.length < l.length
  | [], _, h => by simp [findClose] at h
  | c :: t, r, h => by
    unfold findClose at h
    by_cases hc : c = ')'
    · simp [hc] at h
      simp [← h]
    · simp [hc] at h
      exact Nat.lt_trans (findClose_length h) (by simp)

/-- Fuel-indexed scan for `stripParens`; every step consumes at least one
character, so `fuel = l.length` always suffices and the fuel case is never the
one that answers. -/
def stripParensFuel : Nat → Chars → Chars
  | 0, l => l
  | _ + 1, [] => []
  | fuel + 1, c :: rest =>
    if c = '(' then
      match findClose rest with
      | some rest2 => stripParensFuel fuel rest2
      | none => c :: stripParensFuel fuel rest
    else c :: stripParensFuel fuel rest

/-- `re.sub(r'\([^)]*\)', '', v)`: each `(` that has a later `)` is removed
together with everything up to that first `)`. -/
def stripParens (l : Chars) : Chars := stripParensFuel l.length l

/-- The value normalization pipeline of `parse_entry` (lines 299-305): strip
parenthesized substrings, split on commas, strip whitespace off each piece. -/
def normalizeValue (v : Chars) : List String :=
  (((stripParens v).splitOn ',').map (fun x => (pyStrip x).asString))

/-- `field.lower()` as a Lean string. -/
def lowerName (l : Chars) : String := (l.map Char.toLower).asString

/-- The loop over `fields` (lines 289-308): for each field name require exactly
one value match (`assert len(matches) == 1`), store the raw value under
`<name>-raw` and the normalized list under `<name>`. -/
def processFields (fieldsList : List Chars) (content : Chars) (info : Dict) :
    Except PyError Dict :=
  match fieldsList with
  | [] => .ok info
  | field :: rest =>
    match valueMatchesFor field content with
    | [v] =>
      let info := dset info (lowerName field ++ "-raw") (.s v.asString)
      let info := dset info (lowerName field) (.l (normalizeValue v))
      processFields rest content info
    | _ => .error .assertionError

/-- Title and field extraction of `parse_entry` (lines 276-308).  The title
regex `^# (.*)` is compiled without `re.MULTILINE`, so it can only match at
position 0; `assert len(matches) == 1` therefore fails exactly when the
content does not start with `# `. -/
def parseFields (content : Chars) : Except PyError Dict :=
  if str "# " <+: content then
    let title := (content.drop 2).takeWhile (fun c => c ≠ '\n')
    processFields (fieldsOf content) content [("title", .s title.asString)]
  else .error .assertionError

/-- The warning printed for a missing essential field (line 316). -/
def essentialFieldMsg (field : String) (titleVal : PyVal) : String :=
  "Essential field \"" ++ field ++ "\" missing in entry " ++ pyStr titleVal

/-- Items iterated by `for x in info['state']` (a parsed field value is always
a list; a string would be iterated character-wise). -/
def stateItems : PyVal → List String
  | .l xs => xs
  | .s s => s.data.map String.singleton

/-- `parse_entry(content)` (lines 271-331).  Returns the info dict together
with the list of warnings printed, or the uncaught exception.  The state check
`if 'beta' in v != 'mature' in v` is a Python chained comparison, i.e.
`('beta' in v) and (v != 'mature') and ('mature' in v)`, and its body calls
the undefined name `printf`, raising `NameError`. -/
def parse_entry (content : Chars) : Except PyError (Dict × List String) :=
  match parseFields content with
  | .error e => .error e
  | .ok info =>
  match dget info "home" with
  | none =>
    match pyGetItem info "title" with
    | .error e => .error e
    | .ok t => .ok (info, [essentialFieldMsg "home" t])
  | some _ =>
    match dget info "state" with
    | none =>
      match pyGetItem info "title" with
      | .error e => .error e
      | .ok t => .ok (info, [essentialFieldMsg "state" t])
    | some v =>
      if pyIn "beta" v && pyNeStr v "mature" && pyIn "mature" v then
        .error (.nameError "printf")
      else
        let inactive_year := (stateItems v).filterMap (fun x =>
          if str "inactive since " <+: x.data then
            some ((x.data.drop (str "inactive since ").length).asString)
          else none)
        let info := if inactive_year ≠ [] then dset info "inactive" (.l inactive_year)
          else info
        .ok (info, [])

/-- The per-entry step of `assemble_infos` (lines 352-366): parse, then attach
`category` and `file` (warnings go to stdout and are dropped). -/
def assembleOne (content : Chars) (category file : String) : Except PyError Dict :=
  match parse_entry content with
  | .error e => .error e
  | .ok (info, _warnings) =>
    .ok (dset (dset info "category" (.s category)) "file" (.s file))

example : parseFields (str "# T\n- Home: h\n") =
    .ok [("title", .s "T"), ("home-raw", .s "h"), ("home", .l ["h"])] := by decide

/-! ### TOC and readme regeneration (lines 89-184) -/

/-- `read_first_line` / `f.readline()`: the first line of a text, including its
terminating newline when one exists. -/
def read_first_line : Chars → Chars
  | [] => []
  | c :: t => if c = '\n' then [c] else c :: read_first_line t

/-- The fixed sentinel comment lines (lines 137 and 180). -/
def startSentinel : Chars := str "[comment]: # (start of autogenerated content, do not edit)\n"

/-- End sentinel, including the newline the source concatenates before it. -/
def endSentinel : Chars := str "\n[comment]: # (end of autogenerated content)"

/-- The text written for one category TOC file by `update_category_tocs`
(lines 156-184), as a function of the previous file text and the freshly
generated bullet-list `update`: the previous text contributes only its first
line (`toc_header`); everything else is replaced by
`toc_header + '\n' + startSentinel + update + endSentinel`. -/
def update_category_toc_text (oldText update : Chars) : Chars :=
  read_first_line oldText ++ str "\n" ++ startSentinel ++ update ++ endSentinel

/-- The literal first group of the readme regex
`(# Open Source Games\n\n)(.*)(\nA collection.*)` (line 105). -/
def readmeStart : Chars := str "# Open Source Games\n\n"

/-- The literal core of the readme regex's third group. -/
def collectionPat : Chars := str "\nA collection"

/-- The text written by `update_readme` (lines 102-140) as a function of the
previous readme text and the generated `update` block.  The regex
`(# Open Source Games\n\n)(.*)(\nA collection.*)` with `re.DOTALL` matches
iff the header literal occurs and `\nA collection` occurs after it; the
greedy middle group makes the third group start at the LAST such occurrence
and run to the end of the string, so at most one match exists and
`assert len(matches) == 1` fails exactly on `none`.  The rewritten text is
`group1 + startSentinel-block + group3` (text before the match is dropped). -/
def update_readme_text (text update : Chars) : Option Chars :=
  match firstIdx? readmeStart text with
  | none => none
  | some i =>
    let rest := text.drop (i + readmeStart.length)
    match lastIdx? collectionPat rest with
    | none => none
    | some j =>
      some (readmeStart ++ startSentinel ++ update ++ endSentinel ++ rest.drop j)

/-! ### Statistics (`generate_statistics`, lines 370-454) -/

/-- Stable insertion into a sorted list (used to model Python's stable
`list.sort(key=...)`). -/
def insertSortedBy (le : α → α → Bool) (x : α) : List α → List α
  | [] => [x]
  | y :: ys => if le x y then x :: y :: ys else y :: insertSortedBy le x ys

/-- Stable sort (insertion sort): Python `list.sort(key=...)` with a total
`le` on keys. -/
def stableSortBy (le : α → α → Bool) (l : List α) : List α :=
  l.foldr (insertSortedBy le) []

/-- Round half to even of the fraction `num / den` (`den > 0`) to the nearest
integer: model of the rounding of Python's `'{:.1f}'.format` (exact decimal
ties in binary floats are modelled as exact fraction ties). -/
def roundHalfEvenFrac (num den : Nat) : Nat :=
  let f := num / den
  let rem := num % den
  if 2 * rem < den then f
  else if den < 2 * rem then f + 1
  else if f % 2 = 0 then f else f + 1

/-- `'{:.1f}'.format((count / total) * 100)`: one decimal digit of the
percentage of the exact ratio `count / total`. -/
def fmtPercent1 (count total : Nat) : String :=
  let n := roundHalfEvenFrac (count * 1000) total
  toString (n / 10) ++ "." ++ toString (n % 10)

/-- Lines 419-422: `languages` accumulated with `extend`, i.e. the individual
string values of every `language` field, in order. -/
def collectLanguages (infos : List Dict) : List String :=
  infos.foldl (fun acc info =>
    match dget info "language" with
    | some (.l xs) => acc ++ xs
    | some (.s s) => acc ++ s.data.map String.singleton
    | none => acc) []

/-- Lines 441-444: `licenses` accumulated with `append`, i.e. one element per
entry, each element being the entry's whole `license` VALUE (for parsed
entries, a list). -/
def collectLicenses (infos : List Dict) : List PyVal :=
  infos.foldl (fun acc info =>
    match dget info "license" with
    | some v => acc ++ [v]
    | none => acc) []

/-- Lines 424-429: the language-frequency block.  `set(languages)` over
strings, frequency = count / total occurrences, sort ascending by name then
(stably) by negated frequency, render `- name (pp.p%)`. -/
def languagesFreqBlock (infos : List Dict) : String :=
  let languages := collectLanguages infos
  let uniq := languages.dedup
  let freqs : List (String × Nat) := uniq.map (fun l => (l, languages.count l))
  let freqs := stableSortBy (fun a b => decide (a.1 ≤ b.1)) freqs
  let freqs := stableSortBy (fun a b => decide (b.2 ≤ a.2)) freqs
  let rendered := freqs.map (fun x =>
    "- " ++ x.1 ++ " (" ++ fmtPercent1 x.2 languages.length ++ "%)\n")
  "##### Language frequency\n\n" ++ String.join rendered ++ "\n"

/-- Lines 446-451: the license-frequency block.  `set(licenses)` raises
`TypeError` as soon as `licenses` holds a list (i.e. whenever any entry has a
`license` field, since `collectLicenses` appends whole value lists).  The
tail past `pySet` only runs on an empty collection; its sort keys read the
set elements through `pyStr` (they can only be strings there). -/
def licensesFreqBlock (infos : List Dict) : Except PyError String :=
  let licenses := collectLicenses infos
  match pySet licenses with
  | .error e => .error e
  | .ok uniq =>
  let freqs : List (String × Nat) := uniq.map (fun l => (pyStr l, licenses.count l))
  let freqs := stableSortBy (fun a b => decide (a.1 ≤ b.1)) freqs
  let freqs := stableSortBy (fun a b => decide (b.2 ≤ a.2)) freqs
  let rendered := freqs.map (fun x =>
    "- " ++ x.1 ++ " (" ++ fmtPercent1 x.2 licenses.length ++ "%)\n")
  .ok ("##### Licenses frequency\n\n" ++ String.join rendered ++ "\n")

/-- Lines 397-402: the inactive-entries block.  When at least one entry is
inactive it builds `(x['file'], x['inactive'])` pairs (every assembled info
carries `file`, so the `getD` default is unreachable), sorts by file name,
then sorts with key `-x[1]`; `x[1]` is the `inactive` value (a list of
strings), so the key computation raises `TypeError`. -/
def inactiveStateBlock (infos : List Dict) : Except PyError String :=
  let number_inactive := (infos.filter (fun x => (dget x "inactive").isSome)).length
  if number_inactive > 0 then
    let entries_inactive : List (String × PyVal) := infos.filterMap (fun x =>
      match dget x "inactive" with
      | some v => some (pyStr ((dget x "file").getD (.s "")), v)
      | none => none)
    let entries_inactive := stableSortBy (fun a b => decide (a.1 ≤ b.1)) entries_inactive
    match mapExcept (fun x => pyUnaryNeg x.2) entries_inactive with
    | .error e => .error e
    | .ok keys =>
      let sorted := stableSortBy (fun a b => decide (a.2 ≤ b.2)) (entries_inactive.zip keys)
      let rendered := sorted.map (fun x => x.1.1 ++ " (" ++ pyStr x.1.2 ++ ")")
      .ok ("##### Inactive State\n\n" ++ String.intercalate ", " rendered ++ "\n\n")
  else .ok ""

/-! ### JSON export (`export_json`, lines 457-483) -/

/-- The JSON payload shape of `export_json`. -/
structure JsonDb where
  headings : List String
  data : List (List PyVal)
deriving DecidableEq, Repr

/-- The loop body of `export_json` (lines 471-477): one table row
`[info['title'], info['download'][0] if 'download' in info else '']`. -/
def exportRow (info : Dict) : Except PyError (List PyVal) :=
  match pyGetItem info "title" with
  | .error e => .error e
  | .ok t =>
    match dget info "download" with
    | some dl =>
      match pySubscript0 dl with
      | .error e => .error e
      | .ok d0 => .ok [t, .s d0]
    | none => .ok [t, .s ""]

/-- `export_json`'s projection of the parsed infos into the table payload
(lines 467-478): one row per entry, plus the fixed headings. -/
def export_json (infos : List Dict) : Except PyError JsonDb :=
  match mapExcept exportRow infos with
  | .error e => .error e
  | .ok entries => .ok { headings := ["Name", "Download"], data := entries }

/-- Modelled from the spec's words (claim C8): every entry projects to the
pair `[title, first download value or empty string]`. -/
def exportSpecRow (info : Dict) : List PyVal :=
  [(dget info "title").getD (.s ""),
   match dget info "download" with
   | some (.l (x :: _)) => .s x
   | _ => .s ""]

/-! ### Dictionary and parser lemmas -/

theorem dget_dset_same : ∀ (d : Dict) (k : String) (v : PyVal),
    dget (dset d k v) k = some v
  | [], k, v => by simp [dget, dset]
  | (k0, v0) :: rest, k, v => by
    unfold dset
    by_cases h : k0 = k
    · simp [dget, h]
    · simp [dget, h, dget_dset_same rest k v]

theorem dget_dset_ne : ∀ (d : Dict) (k k' : String) (v : PyVal), k ≠ k' →
    dget (dset d k v) k' = dget d k'
  | [], k, k', v, h => by simp [dget, dset, h]
  | (k0, v0) :: rest, k, k', v, h => by
    unfold dset
    by_cases h0 : k0 = k
    · subst h0
      rw [if_pos rfl]
      unfold dget
      rw [if_neg h, if_neg h]
    · rw [if_neg h0]
      unfold dget
      by_cases h1 : k0 = k'
      · rw [if_pos h1, if_pos h1]
      · rw [if_neg h1, if_neg h1]
        exact dget_dset_ne rest k k' v h

/-- The two dictionary keys a parsed field stores under. -/
def fieldKeys (f : Chars) : List String := [lowerName f ++ "-raw", lowerName f]

/-- Frame property of the field loop: keys not named by any remaining field
are untouched. -/
theorem processFields_dget_frame :
    ∀ {l : List Chars} {content : Chars} {d d' : Dict} {key : String},
    processFields l content d = .ok d' →
    (∀ f ∈ l, key ∉ fieldKeys f) →
    dget d' key = dget d key
  | [], _, d, d', key, h, _ => by
    unfold processFields at h
    simp at h
    rw [h]
  | f :: rest, content, d, d', key, h, hk => by
    unfold processFields at h
    cases hv : valueMatchesFor f content with
    | nil => rw [hv] at h; exact absurd h (by simp)
    | cons v vs =>
      cases vs with
      | nil =>
        rw [hv] at h
        simp at h
        have hne := hk f (by simp)
        simp [fieldKeys] at hne
        rw [processFields_dget_frame h (fun g hg => hk g (by simp [hg]))]
        rw [dget_dset_ne _ _ _ _ (fun e => hne.2 e.symm)]
        rw [dget_dset_ne _ _ _ _ (fun e => hne.1 e.symm)]
      | cons w ws => rw [hv] at h; exact absurd h (by simp)

/-- If any listed field fails the exactly-one-match assertion, the field loop
raises `AssertionError`. -/
theorem processFields_error :
    ∀ {l : List Chars} {content : Chars} {d : Dict},
    (∃ f ∈ l, (valueMatchesFor f content).length ≠ 1) →
    processFields l content d = .error .assertionError
  | [], _, _, h => by simp at h
  | f :: rest, content, d, h => by
    unfold processFields
    cases hv : valueMatchesFor f content with
    | nil => rfl
    | cons v vs =>
      cases vs with
      | nil =>
        obtain ⟨g, hg, hlen⟩ := h
        rcases List.mem_cons.mp hg with rfl | hgr
        · rw [hv] at hlen; simp at hlen
        · exact processFields_error ⟨g, hgr, hlen⟩
      | cons w ws => rfl

/-- The dictionary keys written by a list of fields, in store order. -/
def allFieldKeys (l : List Chars) : List String := l.flatMap fieldKeys

/-- Full specification of the field loop on success: when the keys written by
the fields do not collide, each field ends up with its own raw string and its
own normalized value list. -/
theorem processFields_spec :
    ∀ {l : List Chars} {content : Chars} {d d' : Dict},
    processFields l content d = .ok d' →
    (allFieldKeys l).Nodup →
    ∀ f ∈ l, ∃ v, valueMatchesFor f content = [v] ∧
      dget d' (lowerName f ++ "-raw") = some (.s v.asString) ∧
      dget d' (lowerName f) = some (.l (normalizeValue v))
  | [], _, _, _, _, _ => by simp
  | f :: rest, content, d, d', h, hnodup => by
    unfold processFields at h
    cases hv : valueMatchesFor f content with
    | nil => rw [hv] at h; exact absurd h (by simp)
    | cons v vs =>
      cases vs with
      | nil =>
        rw [hv] at h
        simp at h
        have hsplit : allFieldKeys (f :: rest) =
            (lowerName f ++ "-raw") :: lowerName f :: allFieldKeys rest := by
          simp [allFieldKeys, fieldKeys]
        rw [hsplit] at hnodup
        have hnd1 := List.nodup_cons.mp hnodup
        have hnd2 := List.nodup_cons.mp hnd1.2
        intro g hg
        rcases List.mem_cons.mp hg with rfl | hgr
        · refine ⟨v, hv, ?_, ?_⟩
          · have hnotin : ∀ g' ∈ rest, (lowerName g ++ "-raw") ∉ fieldKeys g' := by
              intro g' hg' hmem
              exact hnd1.1 (by
                simp only [List.mem_cons]
                right
                exact List.mem_flatMap.mpr ⟨g', hg', hmem⟩)
            rw [processFields_dget_frame h hnotin]
            have hne : lowerName g ≠ lowerName g ++ "-raw" := by
              intro e
              have := congrArg String.length e
              simp [String.length_append] at this
              exact absurd this (by decide)
            rw [dget_dset_ne _ _ _ _ hne]
            exact dget_dset_same _ _ _
          · have hnotin : ∀ g' ∈ rest, lowerName g ∉ fieldKeys g' := by
              intro g' hg' hmem
              exact hnd2.1 (List.mem_flatMap.mpr ⟨g', hg', hmem⟩)
            rw [processFields_dget_frame h hnotin]
            exact dget_dset_same _ _ _
        · exact processFields_spec h hnd2.2 g hgr
      | cons w ws => rw [hv] at h; exact absurd h (by simp)

/-- Destructuring a successful `parseFields`: the content starts with `# `
and the field loop ran from the title-only dictionary. -/
theorem parseFields_ok_elim {content : Chars} {info : Dict}
    (h : parseFields content = .ok info) :
    str "# " <+: content ∧
    processFields (fieldsOf content) content
      [("title", .s ((content.drop 2).takeWhile (fun c => c ≠ '\n')).asString)] = .ok info := by
  unfold parseFields at h
  by_cases hp : str "# " <+: content
  · rw [if_pos hp] at h
    exact ⟨hp, h⟩
  · rw [if_neg hp] at h
    exact absurd h (by simp)

/-- Shared helper: when `home` is missing from the parsed fields, `parse_entry`
returns the parsed dictionary unchanged together with exactly the missing-home
warning. -/
theorem parse_entry_missing_home {content : Chars} {info : Dict} {tv : PyVal}
    (hok : parseFields content = .ok info)
    (htitle : dget info "title" = some tv)
    (hhome : dget info "home" = none) :
    parse_entry content = .ok (info, [essentialFieldMsg "home" tv]) := by
  unfold parse_entry
  simp only [hok, hhome, pyGetItem, htitle]

/-- Shared helper: when `home` is present but `state` is missing,
`parse_entry` returns the parsed dictionary unchanged together with exactly
the missing-state warning. -/
theorem parse_entry_missing_state {content : Chars} {info : Dict} {tv hv : PyVal}
    (hok : parseFields content = .ok info)
    (htitle : dget info "title" = some tv)
    (hhome : dget info "home" = some hv)
    (hstate : dget info "state" = none) :
    parse_entry content = .ok (info, [essentialFieldMsg "state" tv]) := by
  unfold parse_entry
  simp only [hok, hhome, hstate, pyGetItem, htitle]

/-- A successful `parse_entry` returns either the `parseFields` dictionary
itself or that dictionary with an `inactive` key assigned. -/
theorem parse_entry_ok_dict {content : Chars} {info : Dict} {ws : List String}
    (h : parse_entry content = .ok (info, ws)) :
    ∃ d0, parseFields content = .ok d0 ∧
      (info = d0 ∨ ∃ ys, info = dset d0 "inactive" (.l ys)) := by
  unfold parse_entry at h
  cases hpf : parseFields content with
  | error e =>
    rw [hpf] at h
    exact absurd h (by simp)
  | ok d0 =>
    simp only [hpf] at h
    refine ⟨d0, rfl, ?_⟩
    cases hhome : dget d0 "home" with
    | none =>
      simp only [hhome] at h
      cases ht : pyGetItem d0 "title" with
      | error e =>
        simp only [ht] at h
        exact absurd h (by simp)
      | ok t =>
        simp only [ht] at h
        simp at h
        left
        exact h.1.symm
    | some hv =>
      simp only [hhome] at h
      cases hstate : dget d0 "state" with
      | none =>
        simp only [hstate] at h
        cases ht : pyGetItem d0 "title" with
        | error e =>
          simp only [ht] at h
          exact absurd h (by simp)
        | ok t =>
          simp only [ht] at h
          simp at h
          left
          exact h.1.symm
      | some v =>
        simp only [hstate] at h
        by_cases hcond : (pyIn "beta" v && pyNeStr v "mature" && pyIn "mature" v) = true
        · rw [if_pos hcond] at h
          exact absurd h (by simp)
        · rw [if_neg hcond] at h
          by_cases hne : (stateItems v).filterMap (fun x =>
              if str "inactive since " <+: x.data then
                some ((x.data.drop (str "inactive since ").length).asString)
              else none) ≠ []
          · rw [if_pos hne] at h
            simp at h
            right
            exact ⟨_, h.1.symm⟩
          · rw [if_neg hne] at h
            simp at h
            left
            exact h.1.symm

/-! ### Claims -/

/-- C1.  The claim says the `state` value list must contain `beta`
exclusive-or `mature`, and that ANY violation (neither present, or both
present) makes `parse_entry` emit a warning naming the title and continue
without crashing.  The code instead evaluates the chained comparison
`'beta' in v != 'mature' in v`, which fires only when BOTH markers are
present, and its body calls the undefined name `printf`: with both markers
present `parse_entry` crashes with `NameError`, and with neither marker
present it emits no warning at all (empty warning list) and continues. -/
theorem c1_state_check_is_broken :
    parse_entry (str "# Game A\n- Home: http://a.example\n- State: beta, mature\n") =
      .error (.nameError "printf") ∧
    (parse_entry (str "# Game B\n- Home: http://b.example\n- State: alpha\n")).map
      (fun p => p.2) = .ok [] := by
  constructor
  · decide
  · decide

/-- C2 counterexample.  The claim says a duplicated field line makes parse
fail with a reported error identifying the title and field name, without
crashing.  On an entry with two `- License:` lines, `parse_entry` instead
hits `assert len(matches) == 1` and raises a bare `AssertionError` — an
uncaught crash carrying neither the title nor the field name, not an
`.ok` result with a report. -/
theorem c2_duplicate_field_counterexample :
    parse_entry (str "# Title X\n- License: MIT\n- License: GPL\n") =
      .error .assertionError := by decide

/-- C2 (amended).  On any entry whose leading heading parses and in which some
declared field does not have exactly one value match (in particular any
duplicated field line), `parse_entry` raises `AssertionError`: it aborts
rather than keeping either value, and the failure carries no title or field
name. -/
theorem c2_duplicate_field_asserts (content : Chars)
    (htitle : str "# " <+: content)
    (hdup : ∃ f ∈ fieldsOf content, (valueMatchesFor f content).length ≠ 1) :
    parse_entry content = .error .assertionError := by
  have hpf : parseFields content = .error .assertionError := by
    unfold parseFields
    rw [if_pos htitle]
    exact processFields_error hdup
  unfold parse_entry
  rw [hpf]

/-- C2 witness: a concrete entry with two `- Home:` lines. -/
theorem c2_duplicate_field_asserts_witness :
    parse_entry (str "# T\n- Home: a\n- Home: b\n") = .error .assertionError :=
  c2_duplicate_field_asserts _ (by decide) ⟨str "Home", by decide, by decide⟩

/-- C7.  An entry missing an essential field (`home`, or `state` when `home`
is present) still parses: `parse_entry` returns the partially built field
mapping unchanged (title and all extracted fields included) together with
exactly one warning naming the missing field and the entry title. -/
theorem c7_missing_essential_field_warns (content : Chars) (info : Dict) (tv : PyVal)
    (hok : parseFields content = .ok info)
    (htitle : dget info "title" = some tv) :
    (dget info "home" = none →
      parse_entry content = .ok (info, [essentialFieldMsg "home" tv])) ∧
    (∀ hv, dget info "home" = some hv → dget info "state" = none →
      parse_entry content = .ok (info, [essentialFieldMsg "state" tv])) :=
  ⟨fun hhome => parse_entry_missing_home hok htitle hhome,
   fun _ hhome hstate => parse_entry_missing_state hok htitle hhome hstate⟩

/-- C7 witness: an entry with no `home` field keeps its title and its
`language` field and is reported with the exact warning text; an entry with
`home` but no `state` is reported as missing `state`. -/
theorem c7_missing_essential_field_warns_witness :
    parse_entry (str "# My Game\n- Language: C\n") =
      .ok ([("title", .s "My Game"), ("language-raw", .s "C"), ("language", .l ["C"])],
        ["Essential field \"home\" missing in entry My Game"]) ∧
    parse_entry (str "# Other\n- Home: h\n") =
      .ok ([("title", .s "Other"), ("home-raw", .s "h"), ("home", .l ["h"])],
        ["Essential field \"state\" missing in entry Other"]) := by
  constructor
  · exact (c7_missing_essential_field_warns
      (str "# My Game\n- Language: C\n")
      [("title", .s "My Game"), ("language-raw", .s "C"), ("language", .l ["C"])]
      (.s "My Game") (by decide) (by decide)).1 (by decide)
  · exact (c7_missing_essential_field_warns
      (str "# Other\n- Home: h\n")
      [("title", .s "Other"), ("home-raw", .s "h"), ("home", .l ["h"])]
      (.s "Other") (by decide) (by decide)).2 (.l ["h"]) (by decide) (by decide)

/-- C10 counterexample.  The claim says that for EVERY entry text missing
`home`, the returned mapping never contains an `inactive` key.  An entry
that itself declares a field line `- Inactive: 2005` (and no `home`) returns
a mapping that does contain the key `inactive` (stored by the field loop,
not by the skipped extraction step). -/
theorem c10_inactive_key_counterexample :
    (parse_entry (str "# T\n- Inactive: 2005\n")).map
      (fun p => (dget p.1 "inactive", p.2)) =
    .ok (some (.l ["2005"]), ["Essential field \"home\" missing in entry T"]) := by
  decide

/-- C10 (amended).  For an entry missing `home` and declaring no field whose
stored keys collide with `inactive`, `parse_entry` returns right after the
missing-home warning: the result is the parsed mapping itself, the only
warning is the missing-home one (no state warning — indeed no state check at
all runs), and the mapping has no `inactive` key even when state values begin
with `inactive since `. -/
theorem c10_missing_home_returns_early (content : Chars) (info : Dict) (tv : PyVal)
    (hok : parseFields content = .ok info)
    (htitle : dget info "title" = some tv)
    (hhome : dget info "home" = none)
    (hkeys : "inactive" ∉ allFieldKeys (fieldsOf content)) :
    parse_entry content = .ok (info, [essentialFieldMsg "home" tv]) ∧
    dget info "inactive" = none := by
  refine ⟨parse_entry_missing_home hok htitle hhome, ?_⟩
  obtain ⟨hp, hproc⟩ := parseFields_ok_elim hok
  rw [processFields_dget_frame hproc (fun f hf hmem =>
    hkeys (List.mem_flatMap.mpr ⟨f, hf, hmem⟩))]
  simp [dget]

/-- C10 witness: an entry whose only field is `- State: inactive since 2005`
and which lacks `home`: parsing warns about `home` only and the returned
mapping has no `inactive` key. -/
theorem c10_missing_home_returns_early_witness :
    parse_entry (str "# T\n- State: inactive since 2005\n") =
      .ok ([("title", .s "T"), ("state-raw", .s "inactive since 2005"),
            ("state", .l ["inactive since 2005"])],
        ["Essential field \"home\" missing in entry T"]) ∧
    dget [("title", .s "T"), ("state-raw", .s "inactive since 2005"),
          ("state", .l ["inactive since 2005"])] "inactive" = none :=
  c10_missing_home_returns_early
    (str "# T\n- State: inactive since 2005\n")
    [("title", .s "T"), ("state-raw", .s "inactive since 2005"),
     ("state", .l ["inactive since 2005"])]
    (.s "T") (by decide) (by decide) (by decide) (by decide)

/-- Concrete entry for the C6 example (`- Language: C++ (primary), Lua`). -/
def c6Content : Chars := str "# Test\n- Language: C++ (primary), Lua\n"

/-- The dictionary `parse_entry` builds for `c6Content`. -/
def c6Info : Dict :=
  [("title", .s "Test"), ("language-raw", .s "C++ (primary), Lua"),
   ("language", .l ["C++", "Lua"])]

/-- C6.  For every field of a successfully parsed entry (with non-colliding
stored keys), the info dict holds the raw value string under
`<lowername>-raw` and, under `<lowername>`, exactly the list produced by the
pipeline `normalizeValue` = strip parenthesized substrings, split on comma,
strip whitespace — applied in that order to the raw value. -/
theorem c6_normalization_pipeline (content : Chars) (info : Dict) (ws : List String)
    (hok : parse_entry content = .ok (info, ws))
    (hnodup : (allFieldKeys (fieldsOf content)).Nodup)
    (hinact : "inactive" ∉ allFieldKeys (fieldsOf content)) :
    ∀ f ∈ fieldsOf content, ∃ v, valueMatchesFor f content = [v] ∧
      dget info (lowerName f ++ "-raw") = some (.s v.asString) ∧
      dget info (lowerName f) = some (.l (normalizeValue v)) := by
  obtain ⟨d0, hpf, hcase⟩ := parse_entry_ok_dict hok
  obtain ⟨hp, hproc⟩ := parseFields_ok_elim hpf
  intro f hf
  obtain ⟨v, hv, hraw, hval⟩ := processFields_spec hproc hnodup f hf
  have hrawmem : (lowerName f ++ "-raw") ∈ allFieldKeys (fieldsOf content) :=
    List.mem_flatMap.mpr ⟨f, hf, by simp [fieldKeys]⟩
  have hvalmem : lowerName f ∈ allFieldKeys (fieldsOf content) :=
    List.mem_flatMap.mpr ⟨f, hf, by simp [fieldKeys]⟩
  rcases hcase with rfl | ⟨ys, rfl⟩
  · exact ⟨v, hv, hraw, hval⟩
  · refine ⟨v, hv, ?_, ?_⟩
    · rw [dget_dset_ne _ _ _ _ (fun e => hinact (by rw [e]; exact hrawmem))]
      exact hraw
    · rw [dget_dset_ne _ _ _ _ (fun e => hinact (by rw [e]; exact hvalmem))]
      exact hval

/-- C6 witness: the spec's own example line yields
`language = ["C++", "Lua"]` and `language-raw = "C++ (primary), Lua"`. -/
theorem c6_normalization_pipeline_witness :
    dget c6Info "language-raw" = some (.s "C++ (primary), Lua") ∧
    dget c6Info "language" = some (.l ["C++", "Lua"]) := by
  obtain ⟨v, hv, hraw, hval⟩ := c6_normalization_pipeline c6Content c6Info
    ["Essential field \"home\" missing in entry Test"]
    (by decide) (by decide) (by decide) (str "Language") (by decide)
  have hc : valueMatchesFor (str "Language") c6Content = [str "C++ (primary), Lua"] := by
    decide
  rw [hc] at hv
  injection hv with h1 _
  subst h1
  have e1 : lowerName (str "Language") ++ "-raw" = "language-raw" := by decide
  have e2 : (str "C++ (primary), Lua").asString = "C++ (primary), Lua" := by decide
  have e3 : lowerName (str "Language") = "language" := by decide
  have e4 : normalizeValue (str "C++ (primary), Lua") = ["C++", "Lua"] := by decide
  rw [e1, e2] at hraw
  rw [e3, e4] at hval
  exact ⟨hraw, hval⟩

/-- A category TOC file with hand-authored text outside the sentinel markers:
a note between the header and the start marker, and a trailer after the end
marker. -/
def c3OldToc : Chars := str
  "# Action\nHANDWRITTEN NOTE\n[comment]: # (start of autogenerated content, do not edit)\n- old item\n\n[comment]: # (end of autogenerated content)\nTRAILER"

/-- A freshly generated bullet list for the C3/C9 examples. -/
def c3Update : Chars := str "- **[Alpha](alpha.md)** (C++, MIT, beta)\n"

/-- C3 counterexample.  The claim says every character outside the two
sentinel markers — including hand-authored text before the start marker and
after the end marker — appears unchanged in the rewritten file.  On a TOC
file carrying such text, the generator's output contains neither the note
before the start marker nor the trailer after the end marker: it keeps only
the header line and rebuilds everything else. -/
theorem c3_outside_text_lost_counterexample :
    (firstIdx? (str "HANDWRITTEN NOTE") c3OldToc).isSome = true ∧
    (firstIdx? (str "TRAILER") c3OldToc).isSome = true ∧
    (firstIdx? startSentinel c3OldToc).isSome = true ∧
    (firstIdx? endSentinel c3OldToc).isSome = true ∧
    firstIdx? (str "HANDWRITTEN NOTE") (update_category_toc_text c3OldToc c3Update) = none ∧
    firstIdx? (str "TRAILER") (update_category_toc_text c3OldToc c3Update) = none := by
  refine ⟨by decide, by decide, by decide, by decide, by decide, by decide⟩

/-- C3 (amended).  The TOC generator preserves exactly the first (header)
line of the previous file: the output starts with that line verbatim, and
nothing else of the previous file influences the output — two old files with
the same first line produce identical output regardless of what stands
between or outside the markers. -/
theorem c3_only_header_preserved (old1 old2 upd : Chars)
    (h : read_first_line old1 = read_first_line old2) :
    update_category_toc_text old1 upd = update_category_toc_text old2 upd ∧
    read_first_line old1 <+: update_category_toc_text old1 upd := by
  constructor
  · unfold update_category_toc_text
    rw [h]
  · unfold update_category_toc_text
    simp only [List.append_assoc]
    exact List.prefix_append _ _

/-- C3 witness: two files sharing the header `# Action` but with different
hand-authored bodies produce the same regenerated text, which starts with
the header. -/
theorem c3_only_header_preserved_witness :
    update_category_toc_text c3OldToc c3Update =
      update_category_toc_text (str "# Action\nsomething else entirely") c3Update ∧
    read_first_line c3OldToc <+: update_category_toc_text c3OldToc c3Update :=
  c3_only_header_preserved c3OldToc (str "# Action\nsomething else entirely") c3Update
    (by decide)

theorem read_first_line_append_nl {h : Chars} (hnl : '\n' ∉ h) (z : Chars) :
    read_first_line (h ++ '\n' :: z) = h ++ ['\n'] := by
  induction h with
  | nil => simp [read_first_line]
  | cons c t ih =>
    simp only [List.mem_cons, not_or] at hnl
    show read_first_line (c :: (t ++ '\n' :: z)) = (c :: t) ++ ['\n']
    unfold read_first_line
    rw [if_neg (fun e => hnl.1 e.symm)]
    rw [ih hnl.2]
    rfl

theorem exists_header_decomp {old : Chars} (h : '\n' ∈ old) :
    ∃ hh z, '\n' ∉ hh ∧ old = hh ++ '\n' :: z := by
  induction old with
  | nil => simp at h
  | cons c t ih =>
    by_cases hc : c = '\n'
    · exact ⟨[], t, by simp, by rw [hc]; rfl⟩
    · have ht : '\n' ∈ t := by
        rcases List.mem_cons.mp h with e | e
        · exact absurd e.symm hc
        · exact e
      obtain ⟨hh, z, hn, he⟩ := ih ht
      refine ⟨c :: hh, z, ?_, by rw [he]; rfl⟩
      simp only [List.mem_cons, not_or]
      exact ⟨fun e => hc e.symm, hn⟩

/-- Regenerating a category TOC a second time with the same generated list
reproduces the same text, provided the previous file had a newline-terminated
header line (any real TOC document does). -/
theorem toc_update_idempotent {old upd : Chars} (h : '\n' ∈ old) :
    update_category_toc_text (update_category_toc_text old upd) upd =
      update_category_toc_text old upd := by
  obtain ⟨hh, z, hnl, hde⟩ := exists_header_decomp h
  have h1 : read_first_line old = hh ++ ['\n'] := by
    rw [hde]
    exact read_first_line_append_nl hnl z
  unfold update_category_toc_text
  rw [h1]
  have h2 : (hh ++ ['\n']) ++ str "\n" ++ startSentinel ++ upd ++ endSentinel
      = hh ++ '\n' :: (str "\n" ++ startSentinel ++ upd ++ endSentinel) := by
    simp
  rw [h2, read_first_line_append_nl hnl]
  simp

/-- Rewriting the readme a second time with the same generated block is a
no-op: the output of a successful `update_readme_text` is a fixed point. -/
theorem readme_update_idempotent {s u t : Chars}
    (h : update_readme_text s u = some t) :
    update_readme_text t u = some t := by
  unfold update_readme_text at h
  cases hf : firstIdx? readmeStart s with
  | none => rw [hf] at h; exact absurd h (by simp)
  | some i =>
    simp only [hf] at h
    cases hl : lastIdx? collectionPat (s.drop (i + readmeStart.length)) with
    | none => rw [hl] at h; exact absurd h (by simp)
    | some j =>
      simp only [hl, Option.some.injEq] at h
      have hE1 : collectionPat <+: (s.drop (i + readmeStart.length)).drop j :=
        lastIdx?_occ hl
      have hE2 : ∀ k, 0 < k →
          ¬ collectionPat <+: ((s.drop (i + readmeStart.length)).drop j).drop k := by
        intro k hk
        rw [List.drop_drop]
        exact lastIdx?_maximal (by decide) hl (by omega)
      have hassoc : t = readmeStart ++
          ((startSentinel ++ u ++ endSentinel) ++ (s.drop (i + readmeStart.length)).drop j) := by
        rw [← h]
        simp
      have hpre : readmeStart <+: t := by
        rw [hassoc]
        exact List.prefix_append _ _
      unfold update_readme_text
      simp only [firstIdx?_at_zero hpre]
      have hdrop : t.drop (0 + readmeStart.length) =
          (startSentinel ++ u ++ endSentinel) ++ (s.drop (i + readmeStart.length)).drop j := by
        rw [hassoc]
        simp [List.drop_left]
      rw [hdrop]
      have hlast : lastIdx? collectionPat
          ((startSentinel ++ u ++ endSentinel) ++ (s.drop (i + readmeStart.length)).drop j) =
          some (startSentinel ++ u ++ endSentinel).length := by
        apply lastIdx?_of_last (by decide)
        · rw [List.drop_left]
          exact hE1
        · intro k hk
          rw [List.drop_append_eq_append_drop]
          rw [List.drop_eq_nil_of_le (Nat.le_of_lt hk)]
          rw [List.nil_append]
          exact hE2 _ (by omega)
      simp only [hlast]
      rw [List.drop_left]
      rw [← h]

/-- C9.  Regenerating a category TOC document (with a newline in it, i.e. any
document with content after its header line) or the root summary document a
second time, with the generated blocks unchanged, produces byte-identical
output. -/
theorem c9_regeneration_idempotent (tocOld tocUpd s u t : Chars)
    (h1 : '\n' ∈ tocOld)
    (h2 : update_readme_text s u = some t) :
    update_category_toc_text (update_category_toc_text tocOld tocUpd) tocUpd =
      update_category_toc_text tocOld tocUpd ∧
    update_readme_text t u = some t :=
  ⟨toc_update_idempotent h1, readme_update_idempotent h2⟩

/-- The readme text of the C9 witness. -/
def c9Readme : Chars := str "# Open Source Games\n\nold middle\nA collection of open source games.\n"

/-- The generated readme block of the C9 witness. -/
def c9Upd : Chars := str "12 entries\n- **[Strategy](games/strategy/_toc.md)** (12)\n"

/-- The output of the first readme rewrite in the C9 witness. -/
def c9Out : Chars := str
  "# Open Source Games\n\n[comment]: # (start of autogenerated content, do not edit)\n12 entries\n- **[Strategy](games/strategy/_toc.md)** (12)\n\n[comment]: # (end of autogenerated content)\nA collection of open source games.\n"

/-- C9 witness: a concrete TOC and a concrete readme, both regenerated twice
with unchanged inputs, reproduce their first output byte for byte. -/
theorem c9_regeneration_idempotent_witness :
    update_category_toc_text (update_category_toc_text c3OldToc c3Update) c3Update =
      update_category_toc_text c3OldToc c3Update ∧
    update_readme_text c9Out c9Upd = some c9Out :=
  c9_regeneration_idempotent c3OldToc c3Update c9Readme c9Upd c9Out
    (by decide) (by decide)

/-- Concrete inactive entry for C4 evidence. -/
def c4Entry : Chars := str "# Game\n- Home: http://example.org\n- State: mature, inactive since 2010\n"

/-- C4.  The claim says the statistics report lists inactive entries sorted
by inactive value descending then filename, and that the parser stores the
inactive marker as a string.  In the code, the parser stores the marker as a
LIST of suffix strings (one per matching state value), and the listing's
second sort key `-x[1]` applies unary minus to that list: as soon as one
entry is inactive, `generate_statistics` raises `TypeError` and renders no
listing at all. -/
theorem c4_inactive_listing_crashes :
    (parse_entry c4Entry).map (fun p => dget p.1 "inactive") =
      .ok (some (.l ["2010"])) ∧
    (assembleOne c4Entry "Action" "game").bind (fun d => inactiveStateBlock [d]) =
      .error (.typeError "bad operand type for unary minus: list") := by
  constructor
  · decide
  · decide

/-- Concrete licensed entry for C5 evidence. -/
def c5Entry : Chars := str "# Game\n- Home: http://example.org\n- State: beta\n- License: MIT\n- Language: C++\n"

/-- C5.  The claim says the report renders a frequency distribution over
individual license values, mirroring the language computation.  The language
side works (shown on a one-entry catalog), but the license side accumulates
whole per-entry value LISTS (`append` instead of `extend`), so `set(licenses)`
raises `TypeError: unhashable type: list` as soon as any entry has a license
field: no license frequency is ever rendered. -/
theorem c5_license_freq_crashes :
    (assembleOne c5Entry "Action" "game").bind (fun d => licensesFreqBlock [d]) =
      .error (.typeError "unhashable type: list") ∧
    (assembleOne c5Entry "Action" "game").map (fun d => languagesFreqBlock [d]) =
      .ok "##### Language frequency\n\n- C++ (100.0%)\n\n" := by
  constructor
  · decide
  · decide

/-- C8.  For any catalog of parsed infos in which every entry has a title and
every present `download` value is a nonempty list (as `parse_entry` always
produces), `export_json` succeeds and its payload is exactly
`{"headings": ["Name", "Download"], "data": [...]}` with one row per entry,
each row being the claim's projection `[title, firstDownloadValueOrEmpty]` —
an entry without a download field yields `[title, ""]` and is not dropped. -/
theorem c8_export_projection (infos : List Dict)
    (h1 : ∀ info ∈ infos, (dget info "title").isSome)
    (h2 : ∀ info ∈ infos, ∀ x, dget info "download" = some x →
      ∃ y ys, x = .l (y :: ys)) :
    export_json infos = .ok ⟨["Name", "Download"], infos.map exportSpecRow⟩ := by
  have key : ∀ (l : List Dict), (∀ info ∈ l, (dget info "title").isSome) →
      (∀ info ∈ l, ∀ x, dget info "download" = some x → ∃ y ys, x = .l (y :: ys)) →
      mapExcept exportRow l = .ok (l.map exportSpecRow) := by
    intro l
    induction l with
    | nil => intro _ _; rfl
    | cons i is ih =>
      intro ha hb
      have hrow : exportRow i = .ok (exportSpecRow i) := by
        unfold exportRow exportSpecRow pyGetItem
        cases ht : dget i "title" with
        | none =>
          have := ha i (by simp)
          rw [ht] at this
          simp at this
        | some t =>
          simp only []
          cases hd : dget i "download" with
          | none => simp
          | some x =>
            obtain ⟨y, ys, rfl⟩ := hb i (by simp) x hd
            simp [pySubscript0]
      unfold mapExcept
      rw [hrow]
      rw [ih (fun j hj => ha j (by simp [hj])) (fun j hj => hb j (by simp [hj]))]
      rfl
  unfold export_json
  rw [key infos h1 h2]

/-- C8 witness: a two-entry catalog — one entry with a download list, one
without — exports to the exact payload, the downloadless entry as
`["B", ""]`. -/
theorem c8_export_projection_witness :
    export_json
      [[("title", .s "A"), ("download", .l ["http://d.example/a"])],
       [("title", .s "B")]] =
    .ok ⟨["Name", "Download"],
      [[.s "A", .s "http://d.example/a"], [.s "B", .s ""]]⟩ := by
  have h := c8_export_projection
    [[("title", .s "A"), ("download", .l ["http://d.example/a"])],
     [("title", .s "B")]]
    (by decide)
    (by intro info hinfo x hx
        fin_cases hinfo <;> simp [dget] at hx
        exact ⟨_, _, hx.symm⟩)
  rw [h]
  decide
